import Mathlib

/-!
# NetworkStatus: derived metrics and the stats poller

A shallow embedding of `src/app/views/NetworkStatus.js`.

* JavaScript numbers are modelled by `JSNum`: rationals extended with `NaN`,
  `+Infinity` and `-Infinity`.  `parseInt` rounds to the nearest double and
  overflows to an infinity.  The operators `+`, `-`, `*`, `/` are exact on
  finite operands: they agree with the operators on doubles wherever the
  exact result is a double, in particular on whole numbers of magnitude at
  most `2 ^ 53`; the sign of zero is not modelled.  A statement that is true
  of doubles only where the sums are exact, or do not overflow, carries the
  bound as a hypothesis.
* The assignment `result[key] = value` of `fromPairs` follows the language
  for the key `__proto__`, which a plain object does not store.
* `this.setState` follows React: the update of an unmounted component is
  discarded.
* JavaScript objects used as maps are modelled by association lists in
  property enumeration order (`Obj`).
* `Currency.fromRaw`, `config.currency.maxSupply` and the `apiClient` calls
  live outside this file; they are taken as parameters, respectively as
  events supplied by the environment.
-/

set_option linter.unnecessarySeqFocus false

set_option linter.unusedVariables false

namespace NetworkStatus

/-! ## JavaScript numbers -/

/-- A JavaScript Number: an exact rational, or one of the three non-finite values. -/
inductive JSNum where
  | fin (q : ℚ)
  | posInf
  | negInf
  | nan
  deriving DecidableEq

namespace JSNum

/-- The infinity carrying the sign of a non-zero rational. -/
def infOfSign (q : ℚ) : JSNum := if 0 < q then posInf else negInf

/-- Unary minus. -/
def neg : JSNum → JSNum
  | fin q => fin (-q)
  | posInf => negInf
  | negInf => posInf
  | nan => nan

/-- The JavaScript `+` on numbers. -/
def add : JSNum → JSNum → JSNum
  | nan, _ => nan
  | _, nan => nan
  | fin a, fin b => fin (a + b)
  | fin _, posInf => posInf
  | fin _, negInf => negInf
  | posInf, fin _ => posInf
  | negInf, fin _ => negInf
  | posInf, posInf => posInf
  | negInf, negInf => negInf
  | posInf, negInf => nan
  | negInf, posInf => nan

/-- The JavaScript binary `-` on numbers. -/
def sub (a b : JSNum) : JSNum := add a (neg b)

/-- The JavaScript `*` on numbers. -/
def mul : JSNum → JSNum → JSNum
  | nan, _ => nan
  | _, nan => nan
  | fin a, fin b => fin (a * b)
  | fin a, posInf => if a = 0 then nan else infOfSign a
  | fin a, negInf => if a = 0 then nan else infOfSign (-a)
  | posInf, fin b => if b = 0 then nan else infOfSign b
  | negInf, fin b => if b = 0 then nan else infOfSign (-b)
  | posInf, posInf => posInf
  | negInf, negInf => posInf
  | posInf, negInf => negInf
  | negInf, posInf => negInf

/-- The JavaScript `/` on numbers.  A zero divisor is taken as `+0`:
`0 / 0` is `NaN` and `x / 0` is the infinity with the sign of `x`. -/
def div : JSNum → JSNum → JSNum
  | nan, _ => nan
  | _, nan => nan
  | fin a, fin b =>
      if b = 0 then (if a = 0 then nan else infOfSign a) else fin (a / b)
  | fin _, posInf => fin 0
  | fin _, negInf => fin 0
  | posInf, fin b => if b < 0 then negInf else posInf
  | negInf, fin b => if b < 0 then posInf else negInf
  | posInf, posInf => nan
  | negInf, negInf => nan
  | posInf, negInf => nan
  | negInf, posInf => nan

/-- The JavaScript `>=` on numbers: false as soon as one side is `NaN`. -/
def ge : JSNum → JSNum → Bool
  | nan, _ => false
  | _, nan => false
  | fin a, fin b => decide (b ≤ a)
  | posInf, _ => true
  | _, negInf => true
  | fin _, posInf => false
  | negInf, fin _ => false
  | negInf, posInf => false

/-- The number with an integer value. -/
def ofInt (n : ℤ) : JSNum := fin (n : ℚ)

/-- The number with a natural value. -/
def ofNat (n : ℕ) : JSNum := fin (n : ℚ)

/-- Whether the number is neither `NaN` nor an infinity. -/
def isFinite : JSNum → Bool
  | fin _ => true
  | _ => false

end JSNum

/-! ## Objects used as maps, and the lodash helpers -/

/-- A JavaScript object used as a map: its own enumerable string-keyed
properties, in enumeration order. -/
abbrev Obj (V : Type) := List (String × V)

/-- Well-formedness of an object: no property name occurs twice. -/
def Obj.WF {V : Type} (o : Obj V) : Prop := (o.map Prod.fst).Nodup

instance {V : Type} (o : Obj V) : Decidable (Obj.WF o) :=
  inferInstanceAs (Decidable (o.map Prod.fst).Nodup)

/-- Writing the own data property `key`: overwrite in place, or append a new property. -/
def Obj.defineOwn {V : Type} : Obj V → String → V → Obj V
  | [], k, v => [(k, v)]
  | (k0, v0) :: rest, k, v =>
      if k0 = k then (k0, v) :: rest else (k0, v0) :: Obj.defineOwn rest k v

/-- The assignment `result[key] = value` on an object whose prototype is
`Object.prototype`, for a primitive `value` (a weight).  The key `__proto__`,
when the object has no own property of that name, reaches the accessor of
`Object.prototype`, whose setter ignores a primitive: nothing is stored.
Every other assignment writes the own property. -/
def Obj.set {V : Type} (o : Obj V) (k : String) (v : V) : Obj V :=
  if k = "__proto__" ∧ k ∉ o.map Prod.fst then o else Obj.defineOwn o k v

/-- The lodash `keys`. -/
def keys {V : Type} (o : Obj V) : List String := o.map Prod.fst

/-- The lodash `values`. -/
def values {V : Type} (o : Obj V) : List V := o.map Prod.snd

/-- The lodash `toPairs`. -/
def toPairs {V : Type} (o : Obj V) : List (String × V) := o

/-- The lodash `fromPairs`: `result[pair[0]] = pair[1]` for each pair in turn. -/
def fromPairs {V : Type} (pairs : List (String × V)) : Obj V :=
  pairs.foldl (fun result pair => Obj.set result pair.1 pair.2) []

/-- The lodash `sum` on an array of numbers: `0` for the empty array,
otherwise the first element with the others added from left to right. -/
def sum : List JSNum → JSNum
  | [] => JSNum.fin 0
  | x :: xs => xs.foldl JSNum.add x

/-! ## `parseInt(string, 10)` and `toFixed` -/

/-- The characters `parseInt` skips at the start: WhiteSpace and LineTerminator. -/
def isStrWhiteSpaceChar (c : Char) : Bool :=
  let n := c.toNat
  n = 9 || n = 10 || n = 11 || n = 12 || n = 13 || n = 32 || n = 0xA0 || n = 0x1680 ||
  (0x2000 ≤ n && n ≤ 0x200A) || n = 0x2028 || n = 0x2029 || n = 0x202F || n = 0x205F ||
  n = 0x3000 || n = 0xFEFF

/-- The value of a run of decimal digits. -/
def digitsValue (ds : List Char) : Nat :=
  ds.foldl (fun acc c => 10 * acc + (c.toNat - '0'.toNat)) 0

/-- The Number value of a natural number: the nearest double, ties to the
even significand, and `+Infinity` from `2 ^ 1024 - 2 ^ 970` on.  Up to
`2 ^ 53` every natural number is a double. -/
def roundNat (n : Nat) : JSNum :=
  if n ≤ 2 ^ 53 then JSNum.ofNat n
  else
    let shift := Nat.log2 n - 52
    let m := n / 2 ^ shift
    let r := n % 2 ^ shift
    let half := 2 ^ (shift - 1)
    let m1 := if r < half then m else if half < r then m + 1 else if m % 2 = 0 then m else m + 1
    if 2 ^ 1024 ≤ m1 * 2 ^ shift then JSNum.posInf else JSNum.ofNat (m1 * 2 ^ shift)

/-- The global `parseInt` with radix 10: skip leading white space, read an
optional sign, read the longest run of decimal digits; `NaN` when that run is
empty, otherwise the Number value of the integer read, with its sign.  (Past
20 significant digits the language allows an approximation; the correctly
rounded value is taken.) -/
def parseInt (amt : String) : JSNum :=
  let s := amt.toList.dropWhile isStrWhiteSpaceChar
  let signed : Bool × List Char :=
    match s with
    | '-' :: rest => (true, rest)
    | '+' :: rest => (false, rest)
    | _ => (false, s)
  let z := signed.2.takeWhile Char.isDigit
  if z.isEmpty then JSNum.nan
  else if signed.1 then JSNum.neg (roundNat (digitsValue z)) else roundNat (digitsValue z)

/-- The decimal digits of a natural number, padded on the left with zeros to
at least `width` characters. -/
def padDigits (n width : Nat) : List Char :=
  let m := (Nat.toDigits 10 n)
  List.replicate (width - m.length) '0' ++ m

/-- `Number.prototype.toFixed(f)`.  `none` covers the two cases left out of
the model: `f > 100` (a RangeError) and a finite magnitude of at least
`10 ^ 21` (the result is then the Number-to-String conversion of the double). -/
def toFixed (x : JSNum) (f : Nat) : Option String :=
  if 100 < f then none else
  match x with
  | JSNum.nan => some "NaN"
  | JSNum.posInf => some "Infinity"
  | JSNum.negInf => some "-Infinity"
  | JSNum.fin q =>
      let s := if q < 0 then "-" else ""
      let a := |q|
      if (10 : ℚ) ^ 21 ≤ a then none else
      let n := (⌊a * (10 : ℚ) ^ f + 1 / 2⌋).toNat
      let m := padDigits n (f + 1)
      let k := m.length
      if f = 0 then some (s ++ String.mk m)
      else some (s ++ String.mk (m.take (k - f)) ++ "." ++ String.mk (m.drop (k - f)))

/-! ## MetricMath: the derived metrics of `NetworkStatus` -/

/-- The part of `props.network` and of the configuration the metrics read. -/
structure Network (Raw : Type) where
  /-- The value of `config.currency.maxSupply`. -/
  maxSupply : JSNum
  /-- The function `Currency.fromRaw`. -/
  fromRaw : Raw → JSNum
  /-- The value of `props.network.genesisBalance`. -/
  genesisBalance : Raw
  /-- The value of `props.network.representativesOnline`. -/
  representativesOnline : Obj Raw

variable {Raw : Type}

/-- The method `rebroadcastThreshold`. -/
def rebroadcastThreshold (nw : Network Raw) : JSNum :=
  JSNum.mul (JSNum.sub nw.maxSupply (nw.fromRaw nw.genesisBalance)) (JSNum.fin (1 / 1000))

/-- The method `rebroadcastableReps`. -/
def rebroadcastableReps (nw : Network Raw) : Obj Raw :=
  fromPairs
    ((toPairs nw.representativesOnline).filter
      (fun rep => JSNum.ge (nw.fromRaw rep.2) (rebroadcastThreshold nw)))

/-- The method `onlineWeight`. -/
def onlineWeight (nw : Network Raw) : JSNum :=
  sum ((values nw.representativesOnline).map (fun amt => nw.fromRaw amt))

/-- The method `onlineRebroadcastWeight`. -/
def onlineRebroadcastWeight (nw : Network Raw) : JSNum :=
  sum
    (((values nw.representativesOnline).map (fun amt => nw.fromRaw amt)).filter
      (fun amt => JSNum.ge amt (rebroadcastThreshold nw)))

/-- The number `onlineRebroadcastPercent` formats:
`this.onlineRebroadcastWeight() / this.onlineWeight() * 100.0`. -/
def onlineRebroadcastPercentValue (nw : Network Raw) : JSNum :=
  JSNum.mul (JSNum.div (onlineRebroadcastWeight nw) (onlineWeight nw)) (JSNum.fin 100)

/-- The method `onlineRebroadcastPercent`: the text of the returned fragment,
the value formatted by `toFixed(2)` followed by a percent sign. -/
def onlineRebroadcastPercent (nw : Network Raw) : Option String :=
  (toFixed (onlineRebroadcastPercentValue nw) 2).map (fun s => s ++ "%")

/-- The method `totalBlocks`, on the `blocksByType` field of the state. -/
def totalBlocks (blocksByType : Obj String) : JSNum :=
  sum ((values blocksByType).map (fun amt => parseInt amt))

/-! ## StatsPoller: the self-rescheduling `updateStats` loop -/

/-- A value together with the poll cycle whose fetch returned it.  The cycle
is a ghost field: no operation reads it.  Cycle `0` marks the constructor. -/
structure Stamped (α : Type) where
  value : α
  cycle : Nat
  deriving DecidableEq

/-- The component state `this.state`. -/
structure Snapshot where
  blocksByType : Stamped (Obj String)
  peers : Stamped (Obj String)
  officialRepresentatives : Stamped (Obj String)
  deriving DecidableEq

/-- The three calls on `apiClient`. -/
inductive Fetch where
  | blockCountByType
  | peers
  | officialRepresentatives
  deriving DecidableEq

/-- How an awaited promise settles. -/
inductive Outcome where
  | resolved (v : Obj String)
  | rejected
  deriving DecidableEq

/-- A suspended invocation of `updateStats`: the `await` it is stopped at,
with the values already received. -/
inductive Frame where
  | awaitBlocks (cycle : Nat)
  | awaitPeers (cycle : Nat) (blocks : Stamped (Obj String))
  | awaitReps (cycle : Nat) (blocks : Stamped (Obj String)) (peers : Stamped (Obj String))
  deriving DecidableEq

/-- A timeout pending in the host: the identifier `setTimeout` returned and its delay in ms. -/
structure Timer where
  id : Nat
  delay : Nat
  deriving DecidableEq

/-- The life of the component. -/
inductive Phase where
  | constructed
  | mounted
  | unmounted
  deriving DecidableEq

/-- The component instance together with the host's pending timeouts and the
suspended invocations of `updateStats`.  `fetches` (every call made on
`apiClient`, oldest first) and `cycles` (the number of invocations of
`updateStats`) are ghost fields. -/
structure Poller where
  state : Snapshot
  statTimer : Option Nat
  phase : Phase
  timers : List Timer
  nextTimerId : Nat
  frames : List Frame
  fetches : List Fetch
  cycles : Nat
  deriving DecidableEq

/-- The constructor: three empty maps, `statTimer = null`.  Timer
identifiers start at `1`, so a stored identifier is truthy. -/
def Poller.init : Poller where
  state := { blocksByType := ⟨[], 0⟩, peers := ⟨[], 0⟩, officialRepresentatives := ⟨[], 0⟩ }
  statTimer := none
  phase := Phase.constructed
  timers := []
  nextTimerId := 1
  frames := []
  fetches := []
  cycles := 0

/-- A call of `updateStats`, up to its first `await`: `apiClient.blockCountByType()`
is called and the invocation suspends. -/
def updateStats (s : Poller) : Poller :=
  { s with
    cycles := s.cycles + 1
    fetches := s.fetches ++ [Fetch.blockCountByType]
    frames := s.frames ++ [Frame.awaitBlocks (s.cycles + 1)] }

/-- The call `this.setState(snapshot)`: React applies the update, except on a
component that has been unmounted, where it discards it. -/
def setState (s : Poller) (snapshot : Snapshot) : Poller :=
  if s.phase = Phase.unmounted then s else { s with state := snapshot }

/-- The rest of `updateStats`: invocation `i` continues when the promise it
awaits settles.  A rejection ends the invocation at the `await`.  A value
leads to the next fetch, and after the third to the single `setState` call
and the `setTimeout(..., 10000)` stored in `statTimer`. -/
def resume (s : Poller) (i : Nat) (o : Outcome) : Option Poller :=
  match s.frames.get? i with
  | none => none
  | some fr =>
    match o with
    | Outcome.rejected => some { s with frames := s.frames.eraseIdx i }
    | Outcome.resolved v =>
      match fr with
      | Frame.awaitBlocks c =>
          some { s with
            frames := s.frames.set i (Frame.awaitPeers c ⟨v, c⟩)
            fetches := s.fetches ++ [Fetch.peers] }
      | Frame.awaitPeers c b =>
          some { s with
            frames := s.frames.set i (Frame.awaitReps c b ⟨v, c⟩)
            fetches := s.fetches ++ [Fetch.officialRepresentatives] }
      | Frame.awaitReps c b p =>
          some { setState s { blocksByType := b, peers := p, officialRepresentatives := ⟨v, c⟩ } with
            frames := s.frames.eraseIdx i
            statTimer := some s.nextTimerId
            timers := s.timers ++ [⟨s.nextTimerId, 10000⟩]
            nextTimerId := s.nextTimerId + 1 }

/-- The method `componentWillMount`. -/
def componentWillMount (s : Poller) : Poller :=
  updateStats { s with phase := Phase.mounted }

/-- The method `componentWillUnmount`: `if (this.statTimer) clearTimeout(this.statTimer)`. -/
def componentWillUnmount (s : Poller) : Poller :=
  match s.statTimer with
  | some id => { s with phase := Phase.unmounted, timers := s.timers.filter (fun t => t.id ≠ id) }
  | none => { s with phase := Phase.unmounted }

/-- What can happen to the component. -/
inductive Event where
  | mount
  | unmount
  | timerFire (id : Nat)
  | settle (i : Nat) (o : Outcome)
  deriving DecidableEq

/-- One step of the poller; `none` when the event cannot happen in `s`. -/
def step (s : Poller) : Event → Option Poller
  | Event.mount =>
      if s.phase = Phase.constructed then some (componentWillMount s) else none
  | Event.unmount =>
      if s.phase = Phase.mounted then some (componentWillUnmount s) else none
  | Event.timerFire id =>
      if s.timers.any (fun t => t.id = id) then
        some (updateStats { s with timers := s.timers.filter (fun t => t.id ≠ id) })
      else none
  | Event.settle i o => resume s i o

/-- Run a sequence of events. -/
def run (s : Poller) : List Event → Option Poller
  | [] => some s
  | e :: es => (step s e).bind (fun s1 => run s1 es)

/-- The states the poller can be in. -/
inductive Reachable : Poller → Prop where
  | init : Reachable Poller.init
  | step {s s1 : Poller} (e : Event) : Reachable s → step s e = some s1 → Reachable s1

/-- The events by which invocation `i` of `updateStats` runs to its end, given
how the three fetches would settle: it stops at the first rejection, and the
later fetches are then never made. -/
def cycleEvents (i : Nat) (blocks peers reps : Outcome) : List Event :=
  match blocks, peers with
  | Outcome.rejected, _ => [Event.settle i Outcome.rejected]
  | Outcome.resolved b, Outcome.rejected =>
      [Event.settle i (Outcome.resolved b), Event.settle i Outcome.rejected]
  | Outcome.resolved b, Outcome.resolved p =>
      [Event.settle i (Outcome.resolved b), Event.settle i (Outcome.resolved p), Event.settle i reps]

/-- Whether one of the three fetches rejects. -/
def someRejected (blocks peers reps : Outcome) : Bool :=
  blocks = Outcome.rejected || peers = Outcome.rejected || reps = Outcome.rejected

/-- The events that call `updateStats`: the mount and the firing of a timer. -/
def Event.startsCycle : Event → Bool
  | Event.mount => true
  | Event.timerFire _ => true
  | _ => false

/-- The stamps of a suspended invocation: its cycle is at least `1`, and the
values it has received carry its cycle. -/
def Frame.Stamped : Frame → Prop
  | Frame.awaitBlocks c => 1 ≤ c
  | Frame.awaitPeers c b => 1 ≤ c ∧ b.cycle = c
  | Frame.awaitReps c b p => 1 ≤ c ∧ b.cycle = c ∧ p.cycle = c

/-- The three fields of the snapshot come from one poll cycle, and from
cycle `0` only as the empty maps of the constructor. -/
def Snapshot.Consistent (st : Snapshot) : Prop :=
  st.blocksByType.cycle = st.peers.cycle ∧
    st.peers.cycle = st.officialRepresentatives.cycle ∧
    (st.blocksByType.cycle = 0 →
      st.blocksByType.value = [] ∧ st.peers.value = [] ∧ st.officialRepresentatives.value = [])

/-- The invariant of the poller: at most one invocation is suspended or one
timer is pending, never both; a pending timer has delay `10000` and is the
one stored in `statTimer`; nothing runs before the mount; stamps are coherent. -/
structure Poller.Inv (s : Poller) : Prop where
  bound : s.frames.length + s.timers.length ≤ 1
  timer_ok : ∀ t ∈ s.timers, t.delay = 10000 ∧ s.statTimer = some t.id
  fresh : s.phase = Phase.constructed → s.frames = [] ∧ s.timers = []
  frame_ok : ∀ fr ∈ s.frames, Frame.Stamped fr
  snap_ok : Snapshot.Consistent s.state

/-! ## Lemmas on objects and sums -/

theorem Obj.defineOwn_of_not_mem {V : Type} (o : Obj V) (k : String) (v : V)
    (h : k ∉ o.map Prod.fst) : Obj.defineOwn o k v = o ++ [(k, v)] := by
  induction o with
  | nil => rfl
  | cons hd tl ih =>
    obtain ⟨k0, v0⟩ := hd
    simp only [List.map_cons, List.mem_cons, not_or] at h
    have hne : ¬ k0 = k := fun e => h.1 e.symm
    simp [Obj.defineOwn, hne, ih h.2]

theorem Obj.set_of_not_mem {V : Type} (o : Obj V) (k : String) (v : V)
    (h : k ∉ o.map Prod.fst) (hk : k ≠ "__proto__") : Obj.set o k v = o ++ [(k, v)] := by
  simp [Obj.set, hk, Obj.defineOwn_of_not_mem o k v h]

theorem Obj.set_proto {V : Type} (o : Obj V) (v : V)
    (h : "__proto__" ∉ o.map Prod.fst) : Obj.set o "__proto__" v = o := by
  simp [Obj.set, h]

/-- Assigning pairs with distinct keys one after the other appends them, except
the pair with key `__proto__`, which is dropped. -/
theorem foldl_set_of_nodup {V : Type} (l acc : List (String × V))
    (h : ((acc ++ l).map Prod.fst).Nodup) (hacc : "__proto__" ∉ acc.map Prod.fst) :
    l.foldl (fun result pair => Obj.set result pair.1 pair.2) acc =
      acc ++ l.filter (fun pair => decide (pair.1 ≠ "__proto__")) := by
  induction l generalizing acc with
  | nil => simp
  | cons hd tl ih =>
    have hnot : hd.1 ∉ acc.map Prod.fst := by
      intro hmem
      rw [List.map_append, List.nodup_append] at h
      exact h.2.2 hmem (by simp)
    by_cases hk : hd.1 = "__proto__"
    · have h2 : ((acc ++ tl).map Prod.fst).Nodup := by
        have hsub : List.Sublist ((acc ++ tl).map Prod.fst) ((acc ++ hd :: tl).map Prod.fst) :=
          List.Sublist.map _ (List.Sublist.append_left (List.sublist_cons_self hd tl) acc)
        exact List.Nodup.sublist hsub h
      rw [List.foldl_cons, hk, Obj.set_proto acc hd.2 hacc, ih acc h2 hacc]
      simp [List.filter_cons, hk]
    · have h2 : ((acc ++ [hd] ++ tl).map Prod.fst).Nodup := by
        simpa [List.append_assoc] using h
      have hacc2 : "__proto__" ∉ (acc ++ [hd]).map Prod.fst := by
        simp only [List.map_append, List.map_cons, List.map_nil, List.mem_append,
          List.mem_singleton, not_or]
        exact ⟨hacc, fun e => hk e.symm⟩
      rw [List.foldl_cons, Obj.set_of_not_mem acc hd.1 hd.2 hnot hk, ih (acc ++ [hd]) h2 hacc2]
      simp [List.filter_cons, hk]

/-- On pairs with distinct keys `fromPairs` builds the object with exactly
these properties, the one named `__proto__` left out. -/
theorem fromPairs_of_nodup {V : Type} (l : List (String × V)) (h : (l.map Prod.fst).Nodup) :
    fromPairs l = l.filter (fun pair => decide (pair.1 ≠ "__proto__")) := by
  have := foldl_set_of_nodup l [] (by simpa using h) (by simp)
  simpa [fromPairs] using this

theorem filter_keys_nodup {V : Type} (o : Obj V) (p : String × V → Bool) (h : Obj.WF o) :
    ((o.filter p).map Prod.fst).Nodup :=
  List.Nodup.sublist (List.Sublist.map Prod.fst (List.filter_sublist o)) h

/-- With distinct property names, none of them `__proto__`,
`rebroadcastableReps` is the filtered list of pairs. -/
theorem rebroadcastableReps_eq_filter (nw : Network Raw) (h : Obj.WF nw.representativesOnline)
    (hp : "__proto__" ∉ keys nw.representativesOnline) :
    rebroadcastableReps nw =
      nw.representativesOnline.filter
        (fun rep => JSNum.ge (nw.fromRaw rep.2) (rebroadcastThreshold nw)) := by
  unfold rebroadcastableReps toPairs
  rw [fromPairs_of_nodup _ (filter_keys_nodup _ _ h)]
  apply List.filter_eq_self.2
  intro pair hpair
  have hmem : pair.1 ∈ keys nw.representativesOnline :=
    List.mem_map_of_mem Prod.fst (List.mem_filter.1 hpair).1
  have hne : pair.1 ≠ "__proto__" := fun e => hp (e ▸ hmem)
  simpa using hne

theorem JSNum.zero_add (x : JSNum) : JSNum.add (JSNum.fin 0) x = x := by
  cases x <;> simp [JSNum.add]

/-- The lodash `sum` is the left fold of `+` from `0`. -/
theorem sum_eq_foldl (xs : List JSNum) : sum xs = xs.foldl JSNum.add (JSNum.fin 0) := by
  cases xs with
  | nil => rfl
  | cons x rest => simp [sum, JSNum.zero_add]

theorem JSNum.nan_add (x : JSNum) : JSNum.add JSNum.nan x = JSNum.nan := by
  cases x <;> rfl

theorem JSNum.add_nan (x : JSNum) : JSNum.add x JSNum.nan = JSNum.nan := by
  cases x <;> rfl

theorem foldl_add_nan (xs : List JSNum) : xs.foldl JSNum.add JSNum.nan = JSNum.nan := by
  induction xs with
  | nil => rfl
  | cons x rest ih => simp [JSNum.nan_add, ih]

theorem foldl_add_of_mem_nan (xs : List JSNum) (a : JSNum) (h : JSNum.nan ∈ xs) :
    xs.foldl JSNum.add a = JSNum.nan := by
  induction xs generalizing a with
  | nil => simp at h
  | cons x rest ih =>
    rcases List.mem_cons.1 h with hx | hx
    · rw [List.foldl_cons, ← hx, JSNum.add_nan, foldl_add_nan]
    · rw [List.foldl_cons]; exact ih _ hx

theorem foldl_add_fin (ns : List ℤ) (a : ℚ) :
    (ns.map JSNum.ofInt).foldl JSNum.add (JSNum.fin a) =
      JSNum.fin (a + ((ns.sum : ℤ) : ℚ)) := by
  induction ns generalizing a with
  | nil => simp
  | cons n rest ih =>
    simp only [List.map_cons, List.foldl_cons, JSNum.ofInt, JSNum.add, List.sum_cons,
      Int.cast_add]
    rw [ih]
    congr 1
    ring

theorem roundNat_of_le (n : Nat) (h : n ≤ 2 ^ 53) : roundNat n = JSNum.ofNat n := by
  rw [roundNat, if_pos h]

theorem foldl_add_rat (qs : List ℚ) (a : ℚ) :
    (qs.map JSNum.fin).foldl JSNum.add (JSNum.fin a) = JSNum.fin (a + qs.sum) := by
  induction qs generalizing a with
  | nil => simp
  | cons q rest ih =>
    simp only [List.map_cons, List.foldl_cons, JSNum.add, List.sum_cons]
    rw [ih]
    congr 1
    ring

/-! ## The claims on MetricMath -/

/-- C1, as the code has it: `totalBlocks` is `NaN` as soon as one value of the
map is not numeric for `parseInt` (no `0` is put in its place); and when the
values parse to whole numbers whose magnitudes total at most `2 ^ 53`,
`totalBlocks` is exactly the sum of these whole numbers. -/
theorem totalBlocks_sum_or_nan (blocksByType : Obj String) :
    ((∃ p ∈ blocksByType, parseInt p.2 = JSNum.nan) →
        totalBlocks blocksByType = JSNum.nan) ∧
      (∀ ns : List ℤ,
        blocksByType.map (fun p => parseInt p.2) = ns.map JSNum.ofInt →
        (ns.map Int.natAbs).sum ≤ 2 ^ 53 →
        totalBlocks blocksByType = JSNum.fin ((ns.sum : ℤ) : ℚ)) := by
  have hv : (values blocksByType).map (fun amt => parseInt amt) =
      blocksByType.map (fun p => parseInt p.2) := by
    simp [values, List.map_map, Function.comp_def]
  constructor
  · rintro ⟨p, hp, hnan⟩
    rw [totalBlocks, sum_eq_foldl]
    apply foldl_add_of_mem_nan
    simp only [values, List.map_map, List.mem_map, Function.comp_apply]
    exact ⟨p, hp, hnan⟩
  · intro ns hns _
    rw [totalBlocks, hv, hns, sum_eq_foldl, foldl_add_fin]
    simp

/-- C1 at `{send: "10", receive: "5", change: "7"}`: the total is `22`. -/
theorem totalBlocks_sum_or_nan_witness :
    totalBlocks [("send", "10"), ("receive", "5"), ("change", "7")] = JSNum.fin 22 := by
  have h := (totalBlocks_sum_or_nan [("send", "10"), ("receive", "5"), ("change", "7")]).2
    [10, 5, 7]
    (by
      have h10 : parseInt "10" = JSNum.ofInt 10 := by
        have hd : parseInt "10" = roundNat 10 := by decide
        rw [hd, roundNat_of_le 10 (by norm_num)]; simp [JSNum.ofInt, JSNum.ofNat]
      have h5 : parseInt "5" = JSNum.ofInt 5 := by
        have hd : parseInt "5" = roundNat 5 := by decide
        rw [hd, roundNat_of_le 5 (by norm_num)]; simp [JSNum.ofInt, JSNum.ofNat]
      have h7 : parseInt "7" = JSNum.ofInt 7 := by
        have hd : parseInt "7" = roundNat 7 := by decide
        rw [hd, roundNat_of_le 7 (by norm_num)]; simp [JSNum.ofInt, JSNum.ofNat]
      simp [h10, h5, h7])
    (by decide)
  rw [h]
  norm_num

/-- C1, the scenario of the specification: with the non-numeric count `"x"`
the total of `{send: "10", receive: "5", change: "x"}` is `NaN`, not `15`. -/
theorem totalBlocks_scenario_is_nan :
    totalBlocks [("send", "10"), ("receive", "5"), ("change", "x")] = JSNum.nan ∧
      totalBlocks [("send", "10"), ("receive", "5"), ("change", "x")] ≠ JSNum.fin 15 := by
  decide

theorem JSNum.nonneg_add (a x : JSNum) (ha : JSNum.ge a (JSNum.fin 0) = true)
    (hx : JSNum.ge x (JSNum.fin 0) = true) : JSNum.ge (JSNum.add a x) (JSNum.fin 0) = true := by
  cases a <;> cases x <;> simp [JSNum.ge, JSNum.add] at * <;> linarith

theorem JSNum.ge_add_mono (a b x : JSNum) (ha : JSNum.ge a (JSNum.fin 0) = true)
    (hb : JSNum.ge b (JSNum.fin 0) = true) (hx : JSNum.ge x (JSNum.fin 0) = true)
    (hab : JSNum.ge b a = true) : JSNum.ge (JSNum.add b x) (JSNum.add a x) = true := by
  cases a <;> cases b <;> cases x <;> simp [JSNum.ge, JSNum.add] at * <;> linarith

theorem JSNum.ge_add_right (a b x : JSNum) (ha : JSNum.ge a (JSNum.fin 0) = true)
    (hb : JSNum.ge b (JSNum.fin 0) = true) (hx : JSNum.ge x (JSNum.fin 0) = true)
    (hab : JSNum.ge b a = true) : JSNum.ge (JSNum.add b x) a = true := by
  cases a <;> cases b <;> cases x <;> simp [JSNum.ge, JSNum.add] at * <;> linarith

/-- Adding up a filtered part of non-negative numbers gives at most the sum of all of them. -/
theorem foldl_add_filter_le (p : JSNum → Bool) (xs : List JSNum)
    (hxs : ∀ x ∈ xs, JSNum.ge x (JSNum.fin 0) = true) (a b : JSNum)
    (ha : JSNum.ge a (JSNum.fin 0) = true) (hb : JSNum.ge b (JSNum.fin 0) = true)
    (hab : JSNum.ge b a = true) :
    JSNum.ge (xs.foldl JSNum.add b) ((xs.filter p).foldl JSNum.add a) = true := by
  induction xs generalizing a b with
  | nil => simpa using hab
  | cons x rest ih =>
    have hx := hxs x (List.mem_cons_self _ _)
    have hrest : ∀ y ∈ rest, JSNum.ge y (JSNum.fin 0) = true :=
      fun y hy => hxs y (List.mem_cons_of_mem _ hy)
    by_cases hp : p x = true
    · rw [List.filter_cons_of_pos hp, List.foldl_cons, List.foldl_cons]
      exact ih hrest _ _ (JSNum.nonneg_add a x ha hx) (JSNum.nonneg_add b x hb hx)
        (JSNum.ge_add_mono a b x ha hb hx hab)
    · rw [List.filter_cons_of_neg hp, List.foldl_cons]
      exact ih hrest _ _ ha (JSNum.nonneg_add b x hb hx) (JSNum.ge_add_right a b x ha hb hx hab)

theorem filter_eq_self_of_all {α : Type} (p : α → Bool) (xs : List α)
    (h : ∀ x ∈ xs, p x = true) : xs.filter p = xs :=
  List.filter_eq_self.2 h

theorem values_map_filter (nw : Network Raw) (t : JSNum) :
    ((values nw.representativesOnline).map (fun amt => nw.fromRaw amt)).filter
        (fun amt => JSNum.ge amt t) =
      (values (nw.representativesOnline.filter (fun rep => JSNum.ge (nw.fromRaw rep.2) t))).map
        (fun amt => nw.fromRaw amt) := by
  unfold values
  induction nw.representativesOnline with
  | nil => rfl
  | cons hd tl ih =>
    by_cases hp : JSNum.ge (nw.fromRaw hd.2) t = true
    · simp only [List.map_cons, List.filter_cons, hp, ↓reduceIte, ih]
    · simp only [List.map_cons, List.filter_cons, hp, Bool.false_eq_true, ↓reduceIte, ih]

/-- C4, as the code has it: for the empty `representativesOnline` map, whatever
the configuration, `onlineWeight` is `0`, the quotient the method formats is
`0 / 0 = NaN` with no sentinel put in its place, and the method returns the
text `NaN%` without throwing. -/
theorem onlineRebroadcastPercent_empty (maxSupply : JSNum) (fromRaw : Raw → JSNum)
    (genesisBalance : Raw) :
    onlineWeight ⟨maxSupply, fromRaw, genesisBalance, []⟩ = JSNum.fin 0 ∧
      onlineRebroadcastPercentValue ⟨maxSupply, fromRaw, genesisBalance, []⟩ = JSNum.nan ∧
      onlineRebroadcastPercent ⟨maxSupply, fromRaw, genesisBalance, []⟩ = some "NaN%" := by
  refine ⟨rfl, ?_, ?_⟩
  · simp [onlineRebroadcastPercentValue, onlineRebroadcastWeight, onlineWeight, values, sum,
      JSNum.div, JSNum.mul]
  · simp [onlineRebroadcastPercent, onlineRebroadcastPercentValue, onlineRebroadcastWeight,
      onlineWeight, values, sum, JSNum.div, JSNum.mul, toFixed]

/-- C4, the scenario of the specification: with `representativesOnline = {}`
the online weight is `0` and the percentage is the non-finite `NaN`, shown as `NaN%`. -/
theorem onlineRebroadcastPercent_empty_scenario :
    onlineWeight (⟨JSNum.fin 10000, fun n => JSNum.ofInt n, 1000, []⟩ : Network ℤ) = JSNum.fin 0 ∧
      JSNum.isFinite
        (onlineRebroadcastPercentValue
          (⟨JSNum.fin 10000, fun n => JSNum.ofInt n, 1000, []⟩ : Network ℤ)) = false ∧
      onlineRebroadcastPercent (⟨JSNum.fin 10000, fun n => JSNum.ofInt n, 1000, []⟩ : Network ℤ) =
        some "NaN%" := by
  decide

/-- C5, as the code has it: for a `representativesOnline` object (distinct
property names) that has no property named `__proto__`, and any configuration,
hence any threshold, `rebroadcastableReps` holds exactly the pairs of the
input whose converted weight is `>=` the threshold, is itself an object with
distinct property names, and has at most as many entries as the input. -/
theorem rebroadcastableReps_exact (nw : Network Raw) (h : Obj.WF nw.representativesOnline)
    (hp : "__proto__" ∉ keys nw.representativesOnline) :
    (∀ k w, (k, w) ∈ rebroadcastableReps nw ↔
        ((k, w) ∈ nw.representativesOnline ∧
          JSNum.ge (nw.fromRaw w) (rebroadcastThreshold nw) = true)) ∧
      Obj.WF (rebroadcastableReps nw) ∧
      (keys (rebroadcastableReps nw)).length ≤ (keys nw.representativesOnline).length := by
  rw [rebroadcastableReps_eq_filter nw h hp]
  refine ⟨?_, filter_keys_nodup _ _ h, ?_⟩
  · intro k w
    simp [List.mem_filter]
  · simp only [keys, List.length_map]
    exact List.length_filter_le _ _

/-- C5 at `{A: 5, B: 2000}` with threshold `9`: only `B` is kept. -/
theorem rebroadcastableReps_exact_witness :
    Obj.WF (⟨JSNum.fin 10000, fun n => JSNum.ofInt n, 1000, [("A", 5), ("B", 2000)]⟩ :
        Network ℤ).representativesOnline ∧
      rebroadcastableReps (⟨JSNum.fin 10000, fun n => JSNum.ofInt n, 1000,
        [("A", 5), ("B", 2000)]⟩ : Network ℤ) = [("B", 2000)] ∧
      (∀ k w, (k, w) ∈ rebroadcastableReps (⟨JSNum.fin 10000, fun n => JSNum.ofInt n, 1000,
          [("A", 5), ("B", 2000)]⟩ : Network ℤ) ↔
        ((k, w) ∈ [("A", (5 : ℤ)), ("B", 2000)] ∧
          JSNum.ge (JSNum.ofInt w) (rebroadcastThreshold (⟨JSNum.fin 10000,
            fun n => JSNum.ofInt n, 1000, [("A", 5), ("B", 2000)]⟩ : Network ℤ)) = true)) :=
  ⟨by decide,
    by
      rw [rebroadcastableReps_eq_filter _ (by decide) (by decide)]
      simp [rebroadcastThreshold, JSNum.ofInt, JSNum.sub, JSNum.neg, JSNum.add, JSNum.mul,
        JSNum.ge, List.filter_cons]
      norm_num,
    (rebroadcastableReps_exact (⟨JSNum.fin 10000, fun n => JSNum.ofInt n, 1000,
      [("A", 5), ("B", 2000)]⟩ : Network ℤ) (by decide) (by decide)).1⟩

/-- C5, the input that breaks the claim as stated: in
`{"__proto__": 2000, B: 3000}` with threshold `9` both entries qualify, and
`rebroadcastableReps` returns `{B: 3000}` only: the assignment
`result["__proto__"] = 2000` of `fromPairs` stores nothing. -/
theorem rebroadcastableReps_drops_proto :
    Obj.WF (⟨JSNum.fin 10000, fun n => JSNum.ofInt n, 1000,
        [("__proto__", 2000), ("B", 3000)]⟩ : Network ℤ).representativesOnline ∧
      JSNum.ge (JSNum.ofInt 2000) (rebroadcastThreshold (⟨JSNum.fin 10000,
        fun n => JSNum.ofInt n, 1000, [("__proto__", 2000), ("B", 3000)]⟩ : Network ℤ)) = true ∧
      rebroadcastableReps (⟨JSNum.fin 10000, fun n => JSNum.ofInt n, 1000,
        [("__proto__", 2000), ("B", 3000)]⟩ : Network ℤ) = [("B", 3000)] := by
  have ht : rebroadcastThreshold (⟨JSNum.fin 10000, fun n => JSNum.ofInt n, 1000,
      [("__proto__", 2000), ("B", 3000)]⟩ : Network ℤ) = JSNum.fin 9 := by
    simp [rebroadcastThreshold, JSNum.ofInt, JSNum.sub, JSNum.neg, JSNum.add, JSNum.mul]
    norm_num
  refine ⟨by decide, ?_, ?_⟩
  · rw [ht]; simp [JSNum.ofInt, JSNum.ge]; norm_num
  · unfold rebroadcastableReps toPairs
    rw [fromPairs_of_nodup _ (filter_keys_nodup _ _ (by decide)), ht]
    simp [JSNum.ofInt, JSNum.ge, List.filter_cons]
    norm_num
    decide

/-- C6: when every converted weight of `representativesOnline` is non-negative,
`onlineRebroadcastWeight() <= onlineWeight()`, for every configuration and so
for every threshold. -/
theorem onlineRebroadcastWeight_le_onlineWeight (nw : Network Raw)
    (h : ∀ rep ∈ nw.representativesOnline, JSNum.ge (nw.fromRaw rep.2) (JSNum.fin 0) = true) :
    JSNum.ge (onlineWeight nw) (onlineRebroadcastWeight nw) = true := by
  unfold onlineWeight onlineRebroadcastWeight
  rw [sum_eq_foldl, sum_eq_foldl]
  apply foldl_add_filter_le
  · intro x hx
    simp only [values, List.map_map, List.mem_map, Function.comp_apply] at hx
    obtain ⟨rep, hrep, rfl⟩ := hx
    exact h rep hrep
  · simp [JSNum.ge]
  · simp [JSNum.ge]
  · simp [JSNum.ge]

/-- C6 at `{A: 5, B: 2000}` with threshold `9`: `2000 <= 2005`. -/
theorem onlineRebroadcastWeight_le_onlineWeight_witness :
    onlineRebroadcastWeight (⟨JSNum.fin 10000, fun n => JSNum.ofInt n, 1000,
        [("A", 5), ("B", 2000)]⟩ : Network ℤ) = JSNum.fin 2000 ∧
      onlineWeight (⟨JSNum.fin 10000, fun n => JSNum.ofInt n, 1000,
        [("A", 5), ("B", 2000)]⟩ : Network ℤ) = JSNum.fin 2005 ∧
      JSNum.ge
        (onlineWeight (⟨JSNum.fin 10000, fun n => JSNum.ofInt n, 1000,
          [("A", 5), ("B", 2000)]⟩ : Network ℤ))
        (onlineRebroadcastWeight (⟨JSNum.fin 10000, fun n => JSNum.ofInt n, 1000,
          [("A", 5), ("B", 2000)]⟩ : Network ℤ)) = true :=
  ⟨by simp [onlineRebroadcastWeight, rebroadcastThreshold, values, sum, JSNum.ofInt,
      JSNum.sub, JSNum.neg, JSNum.add, JSNum.mul, JSNum.ge]; norm_num,
    by simp [onlineWeight, values, sum, JSNum.ofInt, JSNum.add]; norm_num,
    onlineRebroadcastWeight_le_onlineWeight _ (by simp [JSNum.ofInt, JSNum.ge])⟩

theorem toFixed_hundred : toFixed (JSNum.fin 100) 2 = some "100.00" := by
  have hfloor : ⌊|(100 : ℚ)| * (10 : ℚ) ^ 2 + 1 / 2⌋ = 10000 := by
    rw [Int.floor_eq_iff]
    norm_num [abs_of_pos]
  have hlt : ¬ ((10 : ℚ) ^ 21 ≤ |(100 : ℚ)|) := by norm_num [abs_of_pos]
  simp only [toFixed, hfloor, hlt]
  decide

/-- C9, as the code has it: when every converted weight of
`representativesOnline` is `>=` `rebroadcastThreshold()`, the converted
weights are finite and non-negative, and their total is positive and at most
`2 ^ 1023` (so that the sum cannot overflow), `onlineRebroadcastWeight()`
equals `onlineWeight()`, the percentage
`onlineRebroadcastWeight() / onlineWeight() * 100` is exactly `100`, and the
method `onlineRebroadcastPercent` returns `100.00%`. -/
theorem onlineRebroadcastPercent_all_eligible (nw : Network Raw)
    (hall : ∀ rep ∈ nw.representativesOnline,
      JSNum.ge (nw.fromRaw rep.2) (rebroadcastThreshold nw) = true)
    (qs : List ℚ)
    (hqs : (values nw.representativesOnline).map (fun amt => nw.fromRaw amt) =
      qs.map JSNum.fin)
    (hnn : ∀ q ∈ qs, 0 ≤ q) (hpos : 0 < qs.sum) (hbound : qs.sum ≤ 2 ^ 1023) :
    onlineRebroadcastWeight nw = onlineWeight nw ∧
      JSNum.isFinite (onlineWeight nw) = true ∧
      onlineRebroadcastPercentValue nw = JSNum.fin 100 ∧
      onlineRebroadcastPercent nw = some "100.00%" := by
  have hw : onlineRebroadcastWeight nw = onlineWeight nw := by
    unfold onlineRebroadcastWeight onlineWeight
    rw [filter_eq_self_of_all]
    intro x hx
    simp only [values, List.map_map, List.mem_map, Function.comp_apply] at hx
    obtain ⟨rep, hrep, rfl⟩ := hx
    exact hall rep hrep
  have hq : onlineWeight nw = JSNum.fin qs.sum := by
    unfold onlineWeight
    rw [hqs, sum_eq_foldl, foldl_add_rat]
    simp
  have hv : onlineRebroadcastPercentValue nw = JSNum.fin 100 := by
    unfold onlineRebroadcastPercentValue
    rw [hw, hq]
    have hne : qs.sum ≠ 0 := ne_of_gt hpos
    generalize qs.sum = q at hne
    simp [JSNum.div, JSNum.mul, hne]
  refine ⟨hw, by rw [hq]; rfl, hv, ?_⟩
  unfold onlineRebroadcastPercent
  rw [hv, toFixed_hundred]
  decide

/-- C9, the scenario of the specification: `{A: 1000, B: 2000}`, maximum supply
`10000`, genesis balance converting to `1000`: the threshold is `9`, both
weights sum to `3000`, and the percentage is `100`. -/
theorem onlineRebroadcastPercent_all_eligible_witness :
    rebroadcastThreshold (⟨JSNum.fin 10000, fun n => JSNum.fin n, 1000,
        [("A", 1000), ("B", 2000)]⟩ : Network ℚ) = JSNum.fin 9 ∧
      onlineWeight (⟨JSNum.fin 10000, fun n => JSNum.fin n, 1000,
        [("A", 1000), ("B", 2000)]⟩ : Network ℚ) = JSNum.fin 3000 ∧
      onlineRebroadcastWeight (⟨JSNum.fin 10000, fun n => JSNum.fin n, 1000,
        [("A", 1000), ("B", 2000)]⟩ : Network ℚ) = JSNum.fin 3000 ∧
      onlineRebroadcastPercentValue (⟨JSNum.fin 10000, fun n => JSNum.fin n, 1000,
        [("A", 1000), ("B", 2000)]⟩ : Network ℚ) = JSNum.fin 100 ∧
      onlineRebroadcastPercent (⟨JSNum.fin 10000, fun n => JSNum.fin n, 1000,
        [("A", 1000), ("B", 2000)]⟩ : Network ℚ) = some "100.00%" := by
  have ht : rebroadcastThreshold (⟨JSNum.fin 10000, fun n => JSNum.fin n, 1000,
      [("A", 1000), ("B", 2000)]⟩ : Network ℚ) = JSNum.fin 9 := by
    simp [rebroadcastThreshold, JSNum.sub, JSNum.neg, JSNum.add, JSNum.mul]
    norm_num
  have h := onlineRebroadcastPercent_all_eligible
    (⟨JSNum.fin 10000, fun n => JSNum.fin n, 1000, [("A", 1000), ("B", 2000)]⟩ : Network ℚ)
    (by
      intro rep hrep
      rw [ht]
      simp only [List.mem_cons, List.mem_singleton, List.not_mem_nil, or_false] at hrep
      rcases hrep with rfl | rfl <;> simp [JSNum.ge] <;> norm_num)
    [1000, 2000] rfl
    (by
      intro q hq
      simp only [List.mem_cons, List.mem_singleton, List.not_mem_nil, or_false] at hq
      rcases hq with rfl | rfl <;> norm_num)
    (by norm_num) (by norm_num)
  have hw : onlineWeight (⟨JSNum.fin 10000, fun n => JSNum.fin n, 1000,
      [("A", 1000), ("B", 2000)]⟩ : Network ℚ) = JSNum.fin 3000 := by
    simp [onlineWeight, values, sum, JSNum.add]
    norm_num
  exact ⟨ht, hw, h.1.trans hw, h.2.2.1, h.2.2.2⟩

/-- C9, the input that breaks the claim as stated: in `{A: Infinity, B: 2000}`
with threshold `9` the map is not empty, every converted weight is `>= 0` and
`>=` the threshold, the total `Infinity` is positive and both weights are
equal, yet the percentage is `Infinity / Infinity * 100 = NaN`, shown as `NaN%`. -/
theorem onlineRebroadcastPercent_infinite_weight :
    (∀ rep ∈ (⟨JSNum.fin 10000, fun x => x, JSNum.fin 1000,
        [("A", JSNum.posInf), ("B", JSNum.fin 2000)]⟩ : Network JSNum).representativesOnline,
        JSNum.ge rep.2 (JSNum.fin 0) = true ∧
          JSNum.ge rep.2 (rebroadcastThreshold (⟨JSNum.fin 10000, fun x => x, JSNum.fin 1000,
            [("A", JSNum.posInf), ("B", JSNum.fin 2000)]⟩ : Network JSNum)) = true) ∧
      onlineWeight (⟨JSNum.fin 10000, fun x => x, JSNum.fin 1000,
        [("A", JSNum.posInf), ("B", JSNum.fin 2000)]⟩ : Network JSNum) = JSNum.posInf ∧
      onlineRebroadcastWeight (⟨JSNum.fin 10000, fun x => x, JSNum.fin 1000,
        [("A", JSNum.posInf), ("B", JSNum.fin 2000)]⟩ : Network JSNum) = JSNum.posInf ∧
      onlineRebroadcastPercentValue (⟨JSNum.fin 10000, fun x => x, JSNum.fin 1000,
        [("A", JSNum.posInf), ("B", JSNum.fin 2000)]⟩ : Network JSNum) = JSNum.nan ∧
      onlineRebroadcastPercent (⟨JSNum.fin 10000, fun x => x, JSNum.fin 1000,
        [("A", JSNum.posInf), ("B", JSNum.fin 2000)]⟩ : Network JSNum) = some "NaN%" := by
  have ht : rebroadcastThreshold (⟨JSNum.fin 10000, fun x => x, JSNum.fin 1000,
      [("A", JSNum.posInf), ("B", JSNum.fin 2000)]⟩ : Network JSNum) = JSNum.fin 9 := by
    simp [rebroadcastThreshold, JSNum.sub, JSNum.neg, JSNum.add, JSNum.mul]
    norm_num
  have hw : onlineWeight (⟨JSNum.fin 10000, fun x => x, JSNum.fin 1000,
      [("A", JSNum.posInf), ("B", JSNum.fin 2000)]⟩ : Network JSNum) = JSNum.posInf := by
    simp [onlineWeight, values, sum, JSNum.add]
  have hr : onlineRebroadcastWeight (⟨JSNum.fin 10000, fun x => x, JSNum.fin 1000,
      [("A", JSNum.posInf), ("B", JSNum.fin 2000)]⟩ : Network JSNum) = JSNum.posInf := by
    unfold onlineRebroadcastWeight
    rw [ht]
    simp [values, sum, JSNum.add, JSNum.ge, List.filter_cons]
    norm_num [JSNum.add]
  have hv : onlineRebroadcastPercentValue (⟨JSNum.fin 10000, fun x => x, JSNum.fin 1000,
      [("A", JSNum.posInf), ("B", JSNum.fin 2000)]⟩ : Network JSNum) = JSNum.nan := by
    unfold onlineRebroadcastPercentValue
    rw [hr, hw]
    simp [JSNum.div, JSNum.mul]
  refine ⟨?_, hw, hr, hv, ?_⟩
  · intro rep hrep
    rw [ht]
    simp only [List.mem_cons, List.mem_singleton, List.not_mem_nil, or_false] at hrep
    rcases hrep with rfl | rfl <;> simp [JSNum.ge] <;> norm_num
  · unfold onlineRebroadcastPercent
    rw [hv]
    decide

/-- C10, as the code has it: for a `representativesOnline` object (distinct
property names) that has no property named `__proto__`,
`onlineRebroadcastWeight()`, which filters the converted values, is the sum of
the converted weights of the entries of `rebroadcastableReps()`, which filters
the pairs; the values it adds up are as many as `rebroadcastableReps()` has keys. -/
theorem onlineRebroadcastWeight_eq_sum_rebroadcastableReps (nw : Network Raw)
    (h : Obj.WF nw.representativesOnline)
    (hp : "__proto__" ∉ keys nw.representativesOnline) :
    onlineRebroadcastWeight nw =
        sum ((values (rebroadcastableReps nw)).map (fun amt => nw.fromRaw amt)) ∧
      (((values nw.representativesOnline).map (fun amt => nw.fromRaw amt)).filter
          (fun amt => JSNum.ge amt (rebroadcastThreshold nw))).length =
        (keys (rebroadcastableReps nw)).length := by
  rw [rebroadcastableReps_eq_filter nw h hp]
  unfold onlineRebroadcastWeight
  rw [values_map_filter]
  exact ⟨rfl, by simp [values, keys]⟩

/-- C10 at `{A: 5, B: 2000}` with threshold `9`: both ways give `2000`, from one entry. -/
theorem onlineRebroadcastWeight_eq_sum_rebroadcastableReps_witness :
    Obj.WF (⟨JSNum.fin 10000, fun n => JSNum.ofInt n, 1000, [("A", 5), ("B", 2000)]⟩ :
        Network ℤ).representativesOnline ∧
      onlineRebroadcastWeight (⟨JSNum.fin 10000, fun n => JSNum.ofInt n, 1000,
        [("A", 5), ("B", 2000)]⟩ : Network ℤ) =
        sum ((values (rebroadcastableReps (⟨JSNum.fin 10000, fun n => JSNum.ofInt n, 1000,
          [("A", 5), ("B", 2000)]⟩ : Network ℤ))).map (fun amt => JSNum.ofInt amt)) :=
  ⟨by decide,
    (onlineRebroadcastWeight_eq_sum_rebroadcastableReps (⟨JSNum.fin 10000,
      fun n => JSNum.ofInt n, 1000, [("A", 5), ("B", 2000)]⟩ : Network ℤ)
      (by decide) (by decide)).1⟩

/-- C10, the input that breaks the claim as stated: in
`{"__proto__": 2000, B: 3000}` with threshold `9`, `onlineRebroadcastWeight()`
adds up two values to `5000`, while `rebroadcastableReps()` has the single key
`B`, with converted weight `3000`. -/
theorem onlineRebroadcastWeight_differs_with_proto :
    Obj.WF (⟨JSNum.fin 10000, fun n => JSNum.ofInt n, 1000,
        [("__proto__", 2000), ("B", 3000)]⟩ : Network ℤ).representativesOnline ∧
      onlineRebroadcastWeight (⟨JSNum.fin 10000, fun n => JSNum.ofInt n, 1000,
        [("__proto__", 2000), ("B", 3000)]⟩ : Network ℤ) = JSNum.fin 5000 ∧
      sum ((values (rebroadcastableReps (⟨JSNum.fin 10000, fun n => JSNum.ofInt n, 1000,
        [("__proto__", 2000), ("B", 3000)]⟩ : Network ℤ))).map (fun amt => JSNum.ofInt amt)) =
        JSNum.fin 3000 ∧
      keys (rebroadcastableReps (⟨JSNum.fin 10000, fun n => JSNum.ofInt n, 1000,
        [("__proto__", 2000), ("B", 3000)]⟩ : Network ℤ)) = ["B"] := by
  have ht : rebroadcastThreshold (⟨JSNum.fin 10000, fun n => JSNum.ofInt n, 1000,
      [("__proto__", 2000), ("B", 3000)]⟩ : Network ℤ) = JSNum.fin 9 := by
    simp [rebroadcastThreshold, JSNum.ofInt, JSNum.sub, JSNum.neg, JSNum.add, JSNum.mul]
    norm_num
  have hreps : rebroadcastableReps (⟨JSNum.fin 10000, fun n => JSNum.ofInt n, 1000,
      [("__proto__", 2000), ("B", 3000)]⟩ : Network ℤ) = [("B", 3000)] := by
    unfold rebroadcastableReps toPairs
    rw [fromPairs_of_nodup _ (filter_keys_nodup _ _ (by decide)), ht]
    simp [JSNum.ofInt, JSNum.ge, List.filter_cons]
    norm_num
    decide
  refine ⟨by decide, ?_, ?_, ?_⟩
  · unfold onlineRebroadcastWeight
    rw [ht]
    simp [values, sum, JSNum.ofInt, JSNum.add, JSNum.ge, List.filter_cons]
    norm_num [JSNum.add]
  · rw [hreps]
    simp [values, sum, JSNum.ofInt]
  · rw [hreps]
    rfl

/-! ## The poller: invariant -/

theorem Poller.inv_shape {s : Poller} (h : Poller.Inv s) :
    (s.frames = [] ∧ s.timers = []) ∨ (∃ fr, s.frames = [fr] ∧ s.timers = []) ∨
      (∃ t, s.frames = [] ∧ s.timers = [t]) := by
  have hb := h.bound
  rcases hf : s.frames with _ | ⟨fr, _ | ⟨fr2, rest⟩⟩ <;>
    rcases ht : s.timers with _ | ⟨t, _ | ⟨t2, rest2⟩⟩ <;>
    simp [hf, ht] at hb ⊢ <;> omega

theorem Poller.inv_init : Poller.Inv Poller.init where
  bound := by simp [Poller.init]
  timer_ok := by simp [Poller.init]
  fresh := by simp [Poller.init]
  frame_ok := by simp [Poller.init]
  snap_ok := by simp [Poller.init, Snapshot.Consistent]

theorem Poller.inv_step {s s1 : Poller} (e : Event) (h : Poller.Inv s)
    (hs : step s e = some s1) : Poller.Inv s1 := by
  have hshape := Poller.inv_shape h
  obtain ⟨hb, hto, hfresh, hfo, hsnap⟩ := h
  obtain ⟨st, tm, ph, timers, nid, frames, fetches, cycles⟩ := s
  simp only at hb hto hfresh hfo hsnap hshape
  cases e with
  | mount =>
    simp only [step] at hs
    split_ifs at hs with hph
    obtain ⟨hf, ht⟩ := hfresh hph
    subst hf ht
    simp only [Option.some.injEq] at hs
    subst hs
    constructor <;> simp [componentWillMount, updateStats, Frame.Stamped, hsnap]
  | unmount =>
    simp only [step] at hs
    split_ifs at hs with hph
    simp only [Option.some.injEq] at hs
    subst hs
    cases tm with
    | none =>
      constructor <;> simp_all [componentWillUnmount]
    | some id =>
      constructor
      · simp only [componentWillUnmount]
        have := List.length_filter_le (fun t : Timer => decide (t.id ≠ id)) timers
        omega
      · intro t ht
        simp only [componentWillUnmount, List.mem_filter] at ht
        exact hto t ht.1
      · simp [componentWillUnmount]
      · simpa [componentWillUnmount] using hfo
      · simpa [componentWillUnmount] using hsnap
  | timerFire id =>
    simp only [step] at hs
    split_ifs at hs with hany
    simp only [Option.some.injEq] at hs
    subst hs
    rcases hshape with ⟨hf, ht⟩ | ⟨fr, hf, ht⟩ | ⟨t, hf, ht⟩
    · subst ht; simp at hany
    · subst ht; simp at hany
    · subst hf ht
      simp only [List.any_cons, List.any_nil, Bool.or_false, decide_eq_true_eq] at hany
      constructor <;> simp_all [updateStats, Frame.Stamped]
  | settle i o =>
    simp only [step, resume] at hs
    rcases hshape with ⟨hf, ht⟩ | ⟨fr, hf, ht⟩ | ⟨t, hf, ht⟩
    · subst hf; simp at hs
    · subst hf ht
      cases i with
      | succ j => simp at hs
      | zero =>
        have hfr := hfo fr (List.mem_singleton_self fr)
        cases o with
        | rejected =>
          simp only [List.get?_cons_zero, Option.some.injEq] at hs
          subst hs
          constructor <;> simp_all
        | resolved v =>
          cases fr with
          | awaitBlocks c =>
            simp only [List.get?_cons_zero, Option.some.injEq] at hs
            subst hs
            constructor <;> simp_all [Frame.Stamped]
          | awaitPeers c b =>
            simp only [List.get?_cons_zero, Option.some.injEq] at hs
            subst hs
            constructor <;> simp_all [Frame.Stamped]
          | awaitReps c b p =>
            simp only [List.get?_cons_zero, Option.some.injEq] at hs
            subst hs
            simp only [Frame.Stamped] at hfr
            by_cases hph : ph = Phase.unmounted
            · constructor <;> simp_all [Snapshot.Consistent, setState]
            · constructor <;> simp_all [Snapshot.Consistent, setState]
              omega
    · subst hf; simp at hs

/-- Every reachable state satisfies the invariant. -/
theorem Poller.inv_of_reachable {s : Poller} (h : Reachable s) : Poller.Inv s := by
  induction h with
  | init => exact Poller.inv_init
  | step e _ hs ih => exact Poller.inv_step e ih hs

/-! ## The poller: one cycle -/

/-- A call of `updateStats` from a state of the invariant leaves exactly the
new invocation suspended, no timer pending, and the snapshot as it was. -/
theorem start_shape {s s1 : Poller} (h : Poller.Inv s) (e : Event)
    (he : e.startsCycle = true) (hs : step s e = some s1) :
    s1.frames = [Frame.awaitBlocks (s.cycles + 1)] ∧ s1.timers = [] ∧ s1.state = s.state ∧
      s1.phase ≠ Phase.constructed ∧ s1.fetches = s.fetches ++ [Fetch.blockCountByType] := by
  have hshape := Poller.inv_shape h
  obtain ⟨hb, hto, hfresh, hfo, hsnap⟩ := h
  obtain ⟨st, tm, ph, timers, nid, frames, fetches, cycles⟩ := s
  simp only at hb hto hfresh hfo hsnap hshape
  cases e with
  | mount =>
    simp only [step] at hs
    split_ifs at hs with hph
    obtain ⟨hf, ht⟩ := hfresh hph
    subst hf ht
    simp only [Option.some.injEq] at hs
    subst hs
    simp [componentWillMount, updateStats]
  | unmount => simp [Event.startsCycle] at he
  | settle i o => simp [Event.startsCycle] at he
  | timerFire id =>
    simp only [step] at hs
    split_ifs at hs with hany
    simp only [Option.some.injEq] at hs
    subst hs
    rcases hshape with ⟨hf, ht⟩ | ⟨fr, hf, ht⟩ | ⟨t, hf, ht⟩
    · subst ht; simp at hany
    · subst ht; simp at hany
    · subst hf ht
      simp only [List.any_cons, List.any_nil, Bool.or_false, decide_eq_true_eq] at hany
      simp_all [updateStats]

/-- One invocation of `updateStats` run to its end from the state right after its call. -/
theorem cycle_run (s1 : Poller) (c : Nat) (hf : s1.frames = [Frame.awaitBlocks c])
    (ht : s1.timers = []) (blocks peers reps : Outcome) :
    ∃ s2, run s1 (cycleEvents 0 blocks peers reps) = some s2 ∧ s2.frames = [] ∧
      s2.phase = s1.phase ∧
      (someRejected blocks peers reps = true →
        s2.timers = [] ∧ s2.state = s1.state ∧ s2.statTimer = s1.statTimer) ∧
      (someRejected blocks peers reps = false →
        s2.timers = [⟨s1.nextTimerId, 10000⟩] ∧ s2.statTimer = some s1.nextTimerId ∧
          ∃ b p r, blocks = Outcome.resolved b ∧ peers = Outcome.resolved p ∧
            reps = Outcome.resolved r ∧
            s2.state = (setState s1 { blocksByType := ⟨b, c⟩, peers := ⟨p, c⟩,
                                      officialRepresentatives := ⟨r, c⟩ }).state) := by
  obtain ⟨st, tm, ph, timers, nid, frames, fetches, cycles⟩ := s1
  simp only at hf ht
  subst hf ht
  by_cases hph : ph = Phase.unmounted <;> cases blocks <;> cases peers <;> cases reps <;>
    simp [cycleEvents, run, step, resume, someRejected, setState, hph]

/-- After an unmount that found a timer pending, no event can happen any
more: no fetch is issued and the snapshot is never assigned again. -/
theorem unmount_with_pending_timer_stops {s s1 : Poller} (hr : Reachable s)
    (ht : s.timers ≠ []) (hs : step s Event.unmount = some s1) (e : Event) :
    step s1 e = none := by
  have h := Poller.inv_of_reachable hr
  have hshape := Poller.inv_shape h
  obtain ⟨hb, hto, hfresh, hfo, hsnap⟩ := h
  obtain ⟨st, tm, ph, timers, nid, frames, fetches, cycles⟩ := s
  simp only at hb hto hfresh hfo hsnap hshape ht
  simp only [step] at hs
  split_ifs at hs with hph
  simp only [Option.some.injEq] at hs
  subst hs
  rcases hshape with ⟨hf, ht2⟩ | ⟨fr, hf, ht2⟩ | ⟨t, hf, ht2⟩
  · exact absurd ht2 ht
  · exact absurd ht2 ht
  · subst hf ht2
    have hst := (hto t (List.mem_singleton_self t)).2
    subst hst
    cases e <;> simp [step, componentWillUnmount, resume]

/-- Once the component is unmounted it stays so and its snapshot is never
assigned again, whatever happens. -/
theorem unmounted_state_frozen {s s1 : Poller} (e : Event) (hph : s.phase = Phase.unmounted)
    (hs : step s e = some s1) : s1.phase = Phase.unmounted ∧ s1.state = s.state := by
  obtain ⟨st, tm, ph, timers, nid, frames, fetches, cycles⟩ := s
  simp only at hph
  subst hph
  cases e with
  | mount => simp [step] at hs
  | unmount => simp [step] at hs
  | timerFire id =>
    simp only [step] at hs
    split_ifs at hs
    simp only [Option.some.injEq] at hs
    subst hs
    simp [updateStats]
  | settle i o =>
    simp only [step, resume] at hs
    cases hfr : frames.get? i with
    | none => rw [hfr] at hs; simp at hs
    | some fr =>
      rw [hfr] at hs
      simp only at hs
      cases o with
      | rejected =>
        simp only [Option.some.injEq] at hs
        subst hs
        simp
      | resolved v =>
        cases fr <;>
          (simp only [Option.some.injEq] at hs
           subst hs
           simp [setState])

/-- A run from a reachable state ends in a reachable state. -/
theorem reachable_of_run {s s1 : Poller} (es : List Event) (hr : Reachable s)
    (hrun : run s es = some s1) : Reachable s1 := by
  induction es generalizing s with
  | nil =>
    simp only [run, Option.some.injEq] at hrun
    exact hrun ▸ hr
  | cons e rest ih =>
    simp only [run] at hrun
    cases hstep : step s e with
    | none => simp [hstep] at hrun
    | some s0 =>
      rw [hstep] at hrun
      exact ih (Reachable.step e hr hstep) hrun

/-! ## The claims on the poller -/

/-- C2, as the code has it: a cycle of `updateStats` started from a reachable
state runs to its end; when one of the fetches rejects it schedules nothing,
so that afterwards no timer is pending, no invocation is suspended and the
only event that can still happen is the unmount; when all three resolve it
schedules exactly one timer, with delay `10000`, stored in `statTimer`. -/
theorem cycle_schedules_only_on_success {s s1 : Poller} (hr : Reachable s) (e : Event)
    (he : e.startsCycle = true) (hs : step s e = some s1) (blocks peers reps : Outcome) :
    ∃ s2, run s1 (cycleEvents 0 blocks peers reps) = some s2 ∧ s2.frames = [] ∧
      (someRejected blocks peers reps = true →
        s2.timers = [] ∧ ∀ e2 s3, step s2 e2 = some s3 → e2 = Event.unmount) ∧
      (someRejected blocks peers reps = false →
        s2.timers = [⟨s1.nextTimerId, 10000⟩] ∧ s2.statTimer = some s1.nextTimerId) := by
  obtain ⟨hf, ht, _, hph, _⟩ := start_shape (Poller.inv_of_reachable hr) e he hs
  obtain ⟨s2, hrun, hf2, hph2, hrej, hok⟩ := cycle_run s1 _ hf ht blocks peers reps
  refine ⟨s2, hrun, hf2, ?_, ?_⟩
  · intro hr2
    obtain ⟨ht2, _, _⟩ := hrej hr2
    refine ⟨ht2, ?_⟩
    intro e2 s3 hs3
    rw [← hph2] at hph
    cases e2 with
    | unmount => rfl
    | mount => simp [step, hph] at hs3
    | timerFire id => simp [step, ht2] at hs3
    | settle i o => simp [step, resume, hf2] at hs3
  · intro hok2
    obtain ⟨ht2, hst2, _⟩ := hok hok2
    exact ⟨ht2, hst2⟩

/-- C2 at the first cycle after the mount. -/
theorem cycle_schedules_only_on_success_witness :
    ∃ s2, run (componentWillMount Poller.init)
        (cycleEvents 0 (Outcome.resolved []) Outcome.rejected (Outcome.resolved [])) = some s2 ∧
      s2.frames = [] ∧
      (someRejected (Outcome.resolved []) Outcome.rejected (Outcome.resolved []) = true →
        s2.timers = [] ∧ ∀ e2 s3, step s2 e2 = some s3 → e2 = Event.unmount) ∧
      (someRejected (Outcome.resolved []) Outcome.rejected (Outcome.resolved []) = false →
        s2.timers = [⟨(componentWillMount Poller.init).nextTimerId, 10000⟩] ∧
          s2.statTimer = some (componentWillMount Poller.init).nextTimerId) :=
  cycle_schedules_only_on_success Reachable.init Event.mount rfl rfl
    (Outcome.resolved []) Outcome.rejected (Outcome.resolved [])

/-- C2, the scenario of the specification: the first cycle in which the peers
fetch rejects ends with no timer pending and no invocation suspended. -/
theorem failed_cycle_leaves_no_timer :
    (run Poller.init
        [Event.mount, Event.settle 0 (Outcome.resolved [("send", "10")]),
          Event.settle 0 Outcome.rejected]).map
        (fun s => (s.timers, s.frames, s.statTimer)) = some ([], [], none) := by
  decide

/-- C3, the run that breaks it: the component is unmounted while the first
fetch is in flight; `componentWillUnmount` finds no timer to clear, and when
the fetch resolves `updateStats` goes on after the unmount: it issues the
peers fetch, then the representatives fetch, then sets a timer, and the
timer starts the next cycle with a fourth fetch. -/
theorem unmount_in_flight_keeps_polling :
    (run Poller.init [Event.mount, Event.unmount]).map
        (fun s => (s.phase, s.fetches, s.timers)) =
        some (Phase.unmounted, [Fetch.blockCountByType], []) ∧
      (run Poller.init
          [Event.mount, Event.unmount, Event.settle 0 (Outcome.resolved [("send", "10")])]).map
          (fun s => (s.phase, s.fetches, s.timers)) =
        some (Phase.unmounted, [Fetch.blockCountByType, Fetch.peers], []) ∧
      (run Poller.init
          [Event.mount, Event.unmount, Event.settle 0 (Outcome.resolved [("send", "10")]),
            Event.settle 0 (Outcome.resolved []), Event.settle 0 (Outcome.resolved [])]).map
          (fun s => (s.phase, s.fetches, s.timers)) =
        some (Phase.unmounted,
          [Fetch.blockCountByType, Fetch.peers, Fetch.officialRepresentatives],
          [⟨1, 10000⟩]) ∧
      (run Poller.init
          [Event.mount, Event.unmount, Event.settle 0 (Outcome.resolved [("send", "10")]),
            Event.settle 0 (Outcome.resolved []), Event.settle 0 (Outcome.resolved []),
            Event.timerFire 1]).map
          (fun s => (s.phase, s.fetches, s.timers)) =
        some (Phase.unmounted,
          [Fetch.blockCountByType, Fetch.peers, Fetch.officialRepresentatives,
            Fetch.blockCountByType],
          []) := by
  decide

/-- C7: a cycle of `updateStats` started from a reachable state in which one
of the three fetches rejects runs to its end and leaves the snapshot exactly
as it was before the cycle, whichever fetches resolved. -/
theorem failed_cycle_keeps_snapshot {s s1 : Poller} (hr : Reachable s) (e : Event)
    (he : e.startsCycle = true) (hs : step s e = some s1) (blocks peers reps : Outcome)
    (hrej : someRejected blocks peers reps = true) :
    ∃ s2, run s1 (cycleEvents 0 blocks peers reps) = some s2 ∧ s2.state = s.state := by
  obtain ⟨hf, ht, hst, _, _⟩ := start_shape (Poller.inv_of_reachable hr) e he hs
  obtain ⟨s2, hrun, _, _, hrej2, _⟩ := cycle_run s1 _ hf ht blocks peers reps
  exact ⟨s2, hrun, (hrej2 hrej).2.1.trans hst⟩

/-- C7 at the first cycle after the mount, with the peers fetch rejecting. -/
theorem failed_cycle_keeps_snapshot_witness :
    ∃ s2, run (componentWillMount Poller.init)
        (cycleEvents 0 (Outcome.resolved [("send", "10")]) Outcome.rejected
          (Outcome.resolved [])) = some s2 ∧
      s2.state = Poller.init.state :=
  failed_cycle_keeps_snapshot Reachable.init Event.mount rfl rfl
    (Outcome.resolved [("send", "10")]) Outcome.rejected (Outcome.resolved []) rfl

/-- C8: in every reachable state the three fields of the snapshot carry the
stamp of one and the same poll cycle, and the stamp `0` of the constructor
only on the three empty maps. -/
theorem snapshot_fields_from_one_cycle {s : Poller} (hr : Reachable s) :
    s.state.blocksByType.cycle = s.state.peers.cycle ∧
      s.state.peers.cycle = s.state.officialRepresentatives.cycle ∧
      (s.state.blocksByType.cycle = 0 →
        s.state.blocksByType.value = [] ∧ s.state.peers.value = [] ∧
          s.state.officialRepresentatives.value = []) :=
  (Poller.inv_of_reachable hr).snap_ok

/-- C8 after one full cycle and the first fetch of the second: the three
fields all carry the stamp of cycle `1`. -/
theorem snapshot_fields_from_one_cycle_witness :
    ∃ s, run Poller.init
        [Event.mount, Event.settle 0 (Outcome.resolved [("send", "10")]),
          Event.settle 0 (Outcome.resolved [("peer", "v1")]),
          Event.settle 0 (Outcome.resolved [("rep", "5")]), Event.timerFire 1,
          Event.settle 0 (Outcome.resolved [("send", "11")])] = some s ∧
      s.state = { blocksByType := ⟨[("send", "10")], 1⟩, peers := ⟨[("peer", "v1")], 1⟩,
                  officialRepresentatives := ⟨[("rep", "5")], 1⟩ } ∧
      Reachable s ∧
      (s.state.blocksByType.cycle = s.state.peers.cycle ∧
        s.state.peers.cycle = s.state.officialRepresentatives.cycle ∧
        (s.state.blocksByType.cycle = 0 →
          s.state.blocksByType.value = [] ∧ s.state.peers.value = [] ∧
            s.state.officialRepresentatives.value = [])) := by
  have hex : ∃ s, run Poller.init
      [Event.mount, Event.settle 0 (Outcome.resolved [("send", "10")]),
        Event.settle 0 (Outcome.resolved [("peer", "v1")]),
        Event.settle 0 (Outcome.resolved [("rep", "5")]), Event.timerFire 1,
        Event.settle 0 (Outcome.resolved [("send", "11")])] = some s := ⟨_, rfl⟩
  obtain ⟨s, hs⟩ := hex
  have hr : Reachable s := reachable_of_run _ Reachable.init hs
  have hst : (run Poller.init
      [Event.mount, Event.settle 0 (Outcome.resolved [("send", "10")]),
        Event.settle 0 (Outcome.resolved [("peer", "v1")]),
        Event.settle 0 (Outcome.resolved [("rep", "5")]), Event.timerFire 1,
        Event.settle 0 (Outcome.resolved [("send", "11")])]).map Poller.state =
      some { blocksByType := ⟨[("send", "10")], 1⟩, peers := ⟨[("peer", "v1")], 1⟩,
             officialRepresentatives := ⟨[("rep", "5")], 1⟩ } := by decide
  rw [hs] at hst
  exact ⟨s, hs, by simpa using hst, hr, snapshot_fields_from_one_cycle hr⟩

end NetworkStatus
